import Mathlib

/-!
Shallow embedding of the thorlabs MCM3000 device adaptor
(`thorlabs_MCM3000.py`).

Modelling conventions:
* Python floats are modelled as rationals (`ℚ`); Python's `round` (banker's
  rounding, round-half-to-even) is `pyRound`.
* The serial port ("Link") is modelled as an environment: a list of
  `SendResp` records, one consumed per `_send`-level exchange, giving the
  bytes the device returns for a read and the number of leftover bytes that
  `inWaiting()` would report afterwards.
* Every operation returns a `Res α`: an `Except Err α` result, the
  post-state of the channel (Python exceptions leave in-place mutations
  behind, so state is returned even on error), the trace of Link events
  (writes and reads, in order), and the remaining environment.
* Python `assert` failures are mapped to the error taxonomy:
  channel-unavailable / `None`-field arithmetic → `Err.configError`,
  leftover-bytes and channel-byte-mismatch asserts → `Err.protocolError`,
  the travel-limit assert → `Err.outOfRange`.  An exhausted environment
  (no device behaviour specified) is `Err.envExhausted`.
* The adaptor keeps per-channel lists; channels never interact, so the
  embedding models one channel, parametrised by its configuration
  (`ChanConf`) and mutable state (`ChanState`).
-/

namespace MCM3000

/-- Python `round`: round half to even, on rationals. -/
def pyRound (q : ℚ) : ℤ :=
  if q - ⌊q⌋ < 1/2 then ⌊q⌋
  else if 1/2 < q - ⌊q⌋ then ⌊q⌋ + 1
  else if ⌊q⌋ % 2 = 0 then ⌊q⌋ else ⌊q⌋ + 1

/-- Unsigned value of a little-endian byte list (`int.from_bytes(_, 'little')`). -/
def leUnsigned : List ℕ → ℕ
  | [] => 0
  | b :: bs => b + 256 * leUnsigned bs

/-- Signed value of a little-endian byte list
(`int.from_bytes(_, 'little', signed=True)`). -/
def intFromLeSigned (bs : List ℕ) : ℤ :=
  let u := leUnsigned bs
  if u < 2 ^ (8 * bs.length - 1) then (u : ℤ) else (u : ℤ) - 2 ^ (8 * bs.length)

/-- Little-endian byte encoding, `n` bytes (`v.to_bytes(n, 'little')`). -/
def leBytes : ℕ → ℕ → List ℕ
  | 0, _ => []
  | n + 1, v => v % 256 :: leBytes n (v / 256)

/-- Little-endian two's-complement encoding
(`z.to_bytes(n, 'little', signed=True)`). -/
def leBytesSigned (n : ℕ) (z : ℤ) : List ℕ :=
  leBytes n (z % (2 : ℤ) ^ (8 * n)).toNat

/-- Per-stage calibration: `(_um_per_count, _position_limit_um)`. -/
structure Stage where
  um_per_count : ℚ
  position_limit_um : ℚ
  deriving DecidableEq

/-- The `supported_stages` table of the constructor. -/
def supported_stages : List (String × Stage) :=
  [("ZFM2020", ⟨2116667/10000000, 12700⟩),
   ("ZFM2030", ⟨2116667/10000000, 12700⟩),
   ("MMP-2XY", ⟨1/2, 25400⟩)]

/-- Static configuration of one channel: its id, its stage (`none` =
unpopulated, i.e. the channel is not in `self.channels`), the reversal
flag, and `_encoder_counts_tol` (1 by construction). -/
structure ChanConf where
  channel : ℕ
  stage : Option Stage
  reverse : Bool
  encoder_counts_tol : ℤ
  deriving DecidableEq

/-- Mutable per-channel state: `_encoder_counts`, `position_um`,
`_target_encoder_counts` (all `None` before first use in Python). -/
structure ChanState where
  encoder_counts : Option ℤ
  position_um : Option ℚ
  target_encoder_counts : Option ℤ
  deriving DecidableEq

/-- One device behaviour per `_send` exchange: the bytes available for the
read, and what `port.inWaiting()` reports afterwards. -/
structure SendResp where
  resp : List ℕ
  leftOver : ℕ
  deriving DecidableEq

/-- Observable Link events: bytes written, and reads (requested length and
bytes obtained). -/
inductive Ev where
  | write : List ℕ → Ev
  | read : ℕ → List ℕ → Ev
  deriving DecidableEq

/-- Error taxonomy (see module docstring for the mapping from Python
assertion/`TypeError` sites). -/
inductive Err where
  | configError
  | protocolError
  | outOfRange
  | envExhausted
  deriving DecidableEq

deriving instance DecidableEq for Except

/-- Result of an operation: outcome, post-state, Link trace, remaining
environment. -/
structure Res (α : Type) where
  val : Except Err α
  st : ChanState
  tr : List Ev
  env : List SendResp
  deriving DecidableEq

/-- The get-position command frame (`b'\x0a\x04' + channel_byte + b'\x00\x00\x00'`). -/
def getFrame (channel : ℕ) : List ℕ :=
  [0x0a, 0x04] ++ leBytes 1 channel ++ [0, 0, 0]

/-- The zero-encoder command frame
(`b'\x09\x04\x06\x00\x00\x00' + channel_bytes + encoder_bytes(0)`). -/
def zeroFrame (channel : ℕ) : List ℕ :=
  [0x09, 0x04, 0x06, 0, 0, 0] ++ leBytes 2 channel ++ leBytesSigned 4 0

/-- The move-to-count command frame
(`b'\x53\x04\x06\x00\x00\x00' + channel_bytes + encoder_bytes`). -/
def moveFrame (channel : ℕ) (encoder_counts : ℤ) : List ℕ :=
  [0x53, 0x04, 0x06, 0, 0, 0] ++ leBytes 2 channel ++ leBytesSigned 4 encoder_counts

/-- `_encoder_counts_to_um`: counts → physical units, with reversal. -/
def encoder_counts_to_um (upc : ℚ) (rev : Bool) (encoder_counts : ℤ) : ℚ :=
  let um : ℚ := encoder_counts * upc
  if rev then -um else um

/-- `_um_to_encoder_counts`: physical units → counts, with reversal. -/
def um_to_encoder_counts (upc : ℚ) (rev : Bool) (um : ℚ) : ℤ :=
  let encoder_counts := pyRound (um / upc)
  if rev then -encoder_counts else encoder_counts

/-- `_send`: asserts the channel is available (populated), writes the
command, optionally reads `response_bytes` bytes, then asserts the Link's
pending-input buffer is empty. -/
def send (conf : ChanConf) (cmd : List ℕ) (response_bytes : Option ℕ)
    (st : ChanState) (env : List SendResp) : Res (Option (List ℕ)) :=
  match conf.stage with
  | none => ⟨.error .configError, st, [], env⟩
  | some _ =>
    match env with
    | [] => ⟨.error .envExhausted, st, [Ev.write cmd], []⟩
    | r :: rest =>
      let rdEv : List Ev :=
        match response_bytes with
        | some n => [Ev.read n (r.resp.take n)]
        | none => []
      let response : Option (List ℕ) :=
        match response_bytes with
        | some n => some (r.resp.take n)
        | none => none
      if r.leftOver ≠ 0 then ⟨.error .protocolError, st, Ev.write cmd :: rdEv, rest⟩
      else ⟨.ok response, st, Ev.write cmd :: rdEv, rest⟩

/-- `_get_encoder_counts`: one get-position exchange; checks byte offset 6
of the 12-byte response against the channel byte, decodes the final 4 bytes
as a signed little-endian count, and updates `_encoder_counts` and
`position_um`. -/
def get_encoder_counts (conf : ChanConf) (st : ChanState) (env : List SendResp) : Res ℤ :=
  let channel_byte := leBytes 1 conf.channel
  match send conf (getFrame conf.channel) (some 12) st env with
  | ⟨.error e, st', tr, env'⟩ => ⟨.error e, st', tr, env'⟩
  | ⟨.ok response?, st', tr, env'⟩ =>
    let response := response?.getD []
    if (response.drop 6).take 1 ≠ channel_byte then ⟨.error .protocolError, st', tr, env'⟩
    else
      match conf.stage with
      | none => ⟨.error .configError, st', tr, env'⟩
      | some stg =>
        let encoder_counts := intFromLeSigned (response.drop (response.length - 4))
        ⟨.ok encoder_counts,
         { st' with
            encoder_counts := some encoder_counts,
            position_um :=
              some (encoder_counts_to_um stg.um_per_count conf.reverse encoder_counts) },
         tr, env'⟩

/-- The polling loop of `_finish_move`: poll `_get_encoder_counts` until the
reported count lies within `_encoder_counts_tol` of the pending target, then
clear the target.  One environment entry is consumed per poll. -/
def finishLoop (conf : ChanConf) : ChanState → List SendResp → Res Unit
  | st, [] =>
    match get_encoder_counts conf st [] with
    | ⟨.error e, st', tr, env'⟩ => ⟨.error e, st', tr, env'⟩
    | ⟨.ok _, st', tr, env'⟩ => ⟨.error .envExhausted, st', tr, env'⟩
  | st, r :: rest =>
    match get_encoder_counts conf st (r :: rest) with
    | ⟨.error e, st', tr, env'⟩ => ⟨.error e, st', tr, env'⟩
    | ⟨.ok encoder_counts, st', tr, _⟩ =>
      match st'.target_encoder_counts with
      | none => ⟨.error .configError, st', tr, rest⟩
      | some target =>
        let tolerance := conf.encoder_counts_tol
        if target - tolerance ≤ encoder_counts ∧ encoder_counts ≤ target + tolerance then
          ⟨.ok (), { st' with target_encoder_counts := none }, tr, rest⟩
        else
          let res := finishLoop conf st' rest
          ⟨res.val, res.st, tr ++ res.tr, res.env⟩

/-- `_finish_move`: returns immediately when no target is pending, else runs
the polling loop. -/
def finish_move (conf : ChanConf) (st : ChanState) (env : List SendResp) : Res Unit :=
  match st.target_encoder_counts with
  | none => ⟨.ok (), st, [], env⟩
  | some _ => finishLoop conf st env

/-- `_move_to_encoder_count`: if a target is pending, first `_finish_move`;
then record the new target, send the move-to-count frame, and when `block`
run `_finish_move` again. -/
def move_to_encoder_count (conf : ChanConf) (encoder_counts : ℤ) (block : Bool)
    (st : ChanState) (env : List SendResp) : Res Unit :=
  let step1 : Res Unit :=
    match st.target_encoder_counts with
    | some _ => finish_move conf st env
    | none => ⟨.ok (), st, [], env⟩
  match step1 with
  | ⟨.error e, st1, tr1, env1⟩ => ⟨.error e, st1, tr1, env1⟩
  | ⟨.ok _, st1, tr1, env1⟩ =>
    let st2 := { st1 with target_encoder_counts := some encoder_counts }
    match send conf (moveFrame conf.channel encoder_counts) none st2 env1 with
    | ⟨.error e, st3, tr3, env3⟩ => ⟨.error e, st3, tr1 ++ tr3, env3⟩
    | ⟨.ok _, st3, tr3, env3⟩ =>
      if block then
        let r := finish_move conf st3 env3
        ⟨r.val, r.st, tr1 ++ tr3 ++ r.tr, r.env⟩
      else ⟨.ok (), st3, tr1 ++ tr3, env3⟩

/-- `_legalize_move_um`: resolve the reference (`position_um` when
`relative`), check the travel-limit assert on the resolved request, snap to
count granularity and return the legal position.  Pure: touches neither the
Link nor the channel state. -/
def legalize_move_um (conf : ChanConf) (st : ChanState) (move_um : ℚ)
    (relative : Bool) : Except Err ℚ :=
  match conf.stage with
  | none => .error .configError
  | some stg =>
    let m? : Except Err ℚ :=
      if relative then
        match st.position_um with
        | none => .error .configError
        | some p => .ok (move_um + p)
      else .ok move_um
    match m? with
    | .error e => .error e
    | .ok m =>
      let limit_um := stg.position_limit_um
      if -limit_um < m ∧ m < limit_um then
        let move_counts := um_to_encoder_counts stg.um_per_count conf.reverse m
        .ok (encoder_counts_to_um stg.um_per_count conf.reverse move_counts)
      else .error .outOfRange

/-- `move_um`: legalize, convert the legal position to counts, issue the
move (which forces any pending move to finish first), and when `block` run
`_finish_move` once more; returns the legalized position. -/
def move_um (conf : ChanConf) (st : ChanState) (env : List SendResp)
    (move_um : ℚ) (relative : Bool) (block : Bool) : Res ℚ :=
  match legalize_move_um conf st move_um relative with
  | .error e => ⟨.error e, st, [], env⟩
  | .ok legal_move_um =>
    match conf.stage with
    | none => ⟨.error .configError, st, [], env⟩
    | some stg =>
      let encoder_counts := um_to_encoder_counts stg.um_per_count conf.reverse legal_move_um
      match move_to_encoder_count conf encoder_counts block st env with
      | ⟨.error e, st1, tr1, env1⟩ => ⟨.error e, st1, tr1, env1⟩
      | ⟨.ok _, st1, tr1, env1⟩ =>
        if block then
          let r := finish_move conf st1 env1
          match r.val with
          | .error e => ⟨.error e, r.st, tr1 ++ r.tr, r.env⟩
          | .ok _ => ⟨.ok legal_move_um, r.st, tr1 ++ r.tr, r.env⟩
        else ⟨.ok legal_move_um, st1, tr1, env1⟩

/-- The polling loop of `_set_encoder_counts_to_zero`: poll until the
reported count is exactly 0. -/
def zeroLoop (conf : ChanConf) : ChanState → List SendResp → Res Unit
  | st, [] =>
    match get_encoder_counts conf st [] with
    | ⟨.error e, st', tr, env'⟩ => ⟨.error e, st', tr, env'⟩
    | ⟨.ok _, st', tr, env'⟩ => ⟨.error .envExhausted, st', tr, env'⟩
  | st, r :: rest =>
    match get_encoder_counts conf st (r :: rest) with
    | ⟨.error e, st', tr, env'⟩ => ⟨.error e, st', tr, env'⟩
    | ⟨.ok encoder_counts, st', tr, _⟩ =>
      if encoder_counts = 0 then ⟨.ok (), st', tr, rest⟩
      else
        let res := zeroLoop conf st' rest
        ⟨res.val, res.st, tr ++ res.tr, res.env⟩

/-- `_set_encoder_counts_to_zero`: send the zero-encoder frame, then poll
get-position until it reads exactly 0.  Never touches
`_target_encoder_counts`. -/
def set_encoder_counts_to_zero (conf : ChanConf) (st : ChanState)
    (env : List SendResp) : Res Unit :=
  match send conf (zeroFrame conf.channel) none st env with
  | ⟨.error e, st', tr, env'⟩ => ⟨.error e, st', tr, env'⟩
  | ⟨.ok _, st', tr, env'⟩ =>
    let res := zeroLoop conf st' env'
    ⟨res.val, res.st, tr ++ res.tr, res.env⟩

/-- Modelled from the spec (§4.3 step 1), for comparison with
`legalize_move_um`: the spec's reference resolution uses the pending
(not-yet-confirmed) target when a move is pending on the channel, and
`last_known_counts` converted to physical units otherwise. -/
def legalize_move_um_specref (conf : ChanConf) (st : ChanState) (move_um : ℚ)
    (relative : Bool) : Except Err ℚ :=
  match conf.stage with
  | none => .error .configError
  | some stg =>
    let reference? : Option ℚ :=
      match st.target_encoder_counts with
      | some t => some (encoder_counts_to_um stg.um_per_count conf.reverse t)
      | none => st.position_um
    let m? : Except Err ℚ :=
      if relative then
        match reference? with
        | none => .error .configError
        | some p => .ok (move_um + p)
      else .ok move_um
    match m? with
    | .error e => .error e
    | .ok m =>
      let limit_um := stg.position_limit_um
      if -limit_um < m ∧ m < limit_um then
        let move_counts := um_to_encoder_counts stg.um_per_count conf.reverse m
        .ok (encoder_counts_to_um stg.um_per_count conf.reverse move_counts)
      else .error .outOfRange

/-! Helper lemmas for evaluating and bounding `pyRound`. -/

lemma pyRound_eq_low (n : ℤ) (q : ℚ) (h1 : (n : ℚ) ≤ q) (h2 : q < (n : ℚ) + 1/2) :
    pyRound q = n := by
  have hfl : ⌊q⌋ = n := by
    rw [Int.floor_eq_iff]
    exact ⟨h1, by linarith⟩
  have hr : q - ((n : ℤ) : ℚ) < 1/2 := by linarith
  unfold pyRound
  rw [hfl, if_pos hr]

lemma pyRound_eq_high (n : ℤ) (q : ℚ) (h1 : (n : ℚ) + 1/2 < q) (h2 : q < (n : ℚ) + 1) :
    pyRound q = n + 1 := by
  have hfl : ⌊q⌋ = n := by
    rw [Int.floor_eq_iff]
    exact ⟨by linarith, by linarith⟩
  have hr1 : ¬ (q - ((n : ℤ) : ℚ) < 1/2) := by simp; linarith
  have hr2 : (1/2 : ℚ) < q - ((n : ℤ) : ℚ) := by linarith
  unfold pyRound
  rw [hfl, if_neg hr1, if_pos hr2]

lemma pyRound_eq_half (n : ℤ) (q : ℚ) (h : q = (n : ℚ) + 1/2) :
    pyRound q = if n % 2 = 0 then n else n + 1 := by
  have hfl : ⌊q⌋ = n := by
    rw [Int.floor_eq_iff]
    exact ⟨by rw [h]; linarith, by rw [h]; linarith⟩
  have hr : q - ((n : ℤ) : ℚ) = 1/2 := by rw [h]; ring
  unfold pyRound
  rw [hfl, hr]
  norm_num

lemma pyRound_sub_le (q : ℚ) : |(pyRound q : ℚ) - q| ≤ 1/2 := by
  have h0 : ((⌊q⌋ : ℤ) : ℚ) ≤ q := Int.floor_le q
  have h1 : q < ((⌊q⌋ : ℤ) : ℚ) + 1 := Int.lt_floor_add_one q
  unfold pyRound
  split_ifs with ha hb hc
  · rw [abs_le]
    constructor <;> linarith
  · rw [abs_le]
    push_cast
    constructor <;> linarith
  · rw [abs_le]
    have : q - ((⌊q⌋ : ℤ) : ℚ) = 1/2 := le_antisymm (not_lt.mp hb) (not_lt.mp ha)
    constructor <;> linarith
  · rw [abs_le]
    have : q - ((⌊q⌋ : ℤ) : ℚ) = 1/2 := le_antisymm (not_lt.mp hb) (not_lt.mp ha)
    push_cast
    constructor <;> linarith

/-- The round trip through the unit converter lands within one count of the
input, for any positive scale factor and either reversal flag. -/
lemma round_trip_lt (upc : ℚ) (hu : 0 < upc) (rev : Bool) (x : ℚ) :
    |encoder_counts_to_um upc rev (um_to_encoder_counts upc rev x) - x| < upc := by
  have key : encoder_counts_to_um upc rev (um_to_encoder_counts upc rev x)
      = (pyRound (x / upc) : ℚ) * upc := by
    cases rev
    · simp [encoder_counts_to_um, um_to_encoder_counts]
    · simp only [encoder_counts_to_um, um_to_encoder_counts, if_true]
      push_cast
      ring
  rw [key]
  have hb := pyRound_sub_le (x / upc)
  have hfactor : (pyRound (x / upc) : ℚ) * upc - x
      = ((pyRound (x / upc) : ℚ) - x / upc) * upc := by
    field_simp
  rw [hfactor, abs_mul, abs_of_pos hu]
  have : |(pyRound (x / upc) : ℚ) - x / upc| * upc ≤ (1/2) * upc :=
    mul_le_mul_of_nonneg_right hb hu.le
  linarith

/-- C5: for every supported stage calibration `um_per_count` and every
reversal flag, `|toUm(toCounts(x)) − x| < um_per_count` for all physical
inputs `x`. -/
theorem c5_round_trip_quantization (nm : String) (stg : Stage) (rev : Bool) (x : ℚ)
    (h : (nm, stg) ∈ supported_stages) :
    |encoder_counts_to_um stg.um_per_count rev
        (um_to_encoder_counts stg.um_per_count rev x) - x| < stg.um_per_count := by
  have hu : 0 < stg.um_per_count := by
    simp only [supported_stages, List.mem_cons, List.mem_singleton, Prod.mk.injEq,
      List.not_mem_nil, or_false] at h
    rcases h with ⟨-, h⟩ | ⟨-, h⟩ | ⟨-, h⟩ <;> rw [h] <;> norm_num
  exact round_trip_lt _ hu rev x

/-- Witness for C5 at the ZFM2030 calibration, reversal off, input 10 µm. -/
theorem c5_witness :
    ("ZFM2030", (⟨2116667/10000000, 12700⟩ : Stage)) ∈ supported_stages ∧
    |encoder_counts_to_um ((⟨2116667/10000000, 12700⟩ : Stage)).um_per_count false
        (um_to_encoder_counts ((⟨2116667/10000000, 12700⟩ : Stage)).um_per_count false 10) - 10|
      < ((⟨2116667/10000000, 12700⟩ : Stage)).um_per_count := by
  have hm : ("ZFM2030", (⟨2116667/10000000, 12700⟩ : Stage)) ∈ supported_stages := by
    simp [supported_stages]
  exact ⟨hm, c5_round_trip_quantization "ZFM2030" _ false 10 hm⟩

/-! Helper lemmas about `send`, `get_encoder_counts` and the polling loops. -/

lemma send_st_eq (conf : ChanConf) (cmd : List ℕ) (rb : Option ℕ) (st : ChanState)
    (env : List SendResp) : (send conf cmd rb st env).st = st := by
  unfold send
  cases conf.stage
  · rfl
  · cases env
    · rfl
    · simp only []
      split_ifs <;> rfl

lemma get_target_eq (conf : ChanConf) (st : ChanState) (env : List SendResp) :
    (get_encoder_counts conf st env).st.target_encoder_counts = st.target_encoder_counts := by
  unfold get_encoder_counts
  rcases hs : send conf (getFrame conf.channel) (some 12) st env with ⟨v, st', tr, env'⟩
  have hst : st' = st := by
    have h := send_st_eq conf (getFrame conf.channel) (some 12) st env
    rw [hs] at h
    exact h
  subst hst
  cases v with
  | error e => rfl
  | ok response? =>
    dsimp only
    split_ifs
    · rfl
    · cases conf.stage <;> rfl

lemma zeroLoop_target_eq (conf : ChanConf) (st : ChanState) (env : List SendResp) :
    (zeroLoop conf st env).st.target_encoder_counts = st.target_encoder_counts := by
  induction env generalizing st with
  | nil =>
    unfold zeroLoop
    rcases hg : get_encoder_counts conf st [] with ⟨v, st', tr, env'⟩
    have ht : st'.target_encoder_counts = st.target_encoder_counts := by
      have h := get_target_eq conf st []
      rw [hg] at h
      exact h
    cases v <;> exact ht
  | cons r rest ih =>
    unfold zeroLoop
    rcases hg : get_encoder_counts conf st (r :: rest) with ⟨v, st', tr, env'⟩
    have ht : st'.target_encoder_counts = st.target_encoder_counts := by
      have h := get_target_eq conf st (r :: rest)
      rw [hg] at h
      exact h
    cases v with
    | error e => exact ht
    | ok encoder_counts =>
      dsimp only
      split_ifs
      · exact ht
      · exact (ih st').trans ht

/-- C10: `_set_encoder_counts_to_zero` never touches the pending target:
whatever the channel's pending target was before the call (including a
stale pre-zero target), it is unchanged after it; only the last-known
counts and the derived position can differ. -/
theorem c10_zero_preserves_target (conf : ChanConf) (st : ChanState) (env : List SendResp) :
    (set_encoder_counts_to_zero conf st env).st.target_encoder_counts
      = st.target_encoder_counts := by
  unfold set_encoder_counts_to_zero
  rcases hs : send conf (zeroFrame conf.channel) none st env with ⟨v, st', tr, env'⟩
  have hst : st' = st := by
    have h := send_st_eq conf (zeroFrame conf.channel) none st env
    rw [hs] at h
    exact h
  subst hst
  cases v with
  | error e => rfl
  | ok _ => exact zeroLoop_target_eq _ _ _

/-- C8: every adaptor-level operation addressed to an unpopulated channel
(`stage = none`) fails with the configuration error and writes nothing to
the Link (empty trace, state and environment untouched). -/
theorem c8_unpopulated_rejected (conf : ChanConf) (st : ChanState) (env : List SendResp)
    (mu : ℚ) (rel block : Bool) (h : conf.stage = none) :
    get_encoder_counts conf st env = ⟨.error .configError, st, [], env⟩ ∧
    legalize_move_um conf st mu rel = .error .configError ∧
    move_um conf st env mu rel block = ⟨.error .configError, st, [], env⟩ ∧
    set_encoder_counts_to_zero conf st env = ⟨.error .configError, st, [], env⟩ := by
  have hleg : legalize_move_um conf st mu rel = .error .configError := by
    unfold legalize_move_um
    rw [h]
  refine ⟨?_, hleg, ?_, ?_⟩
  · unfold get_encoder_counts send
    rw [h]
  · unfold move_um
    rw [hleg, h]
  · unfold set_encoder_counts_to_zero send
    rw [h]

/-- Witness for C8: channel 0 unpopulated, all four operations rejected. -/
theorem c8_witness :
    get_encoder_counts ⟨0, none, false, 1⟩ ⟨none, none, none⟩ []
        = ⟨.error .configError, ⟨none, none, none⟩, [], []⟩ ∧
    legalize_move_um ⟨0, none, false, 1⟩ ⟨none, none, none⟩ 5 true = .error .configError ∧
    move_um ⟨0, none, false, 1⟩ ⟨none, none, none⟩ [] 5 true true
        = ⟨.error .configError, ⟨none, none, none⟩, [], []⟩ ∧
    set_encoder_counts_to_zero ⟨0, none, false, 1⟩ ⟨none, none, none⟩ []
        = ⟨.error .configError, ⟨none, none, none⟩, [], []⟩ :=
  c8_unpopulated_rejected ⟨0, none, false, 1⟩ ⟨none, none, none⟩ [] 5 true true rfl

/-- C9: `_move_to_encoder_count` records the pending target before the
move-to-count frame goes out; when the send fails (leftover bytes on the
Link), the error propagates but the channel is left Moving with a target
that was never successfully commanded. -/
theorem c9_target_set_before_send (conf : ChanConf) (stg : Stage) (st : ChanState)
    (r : SendResp) (rest : List SendResp) (ec : ℤ) (block : Bool)
    (h : conf.stage = some stg) (hidle : st.target_encoder_counts = none)
    (hleft : r.leftOver ≠ 0) :
    move_to_encoder_count conf ec block st (r :: rest) =
      ⟨.error .protocolError, { st with target_encoder_counts := some ec },
       [Ev.write (moveFrame conf.channel ec)], rest⟩ ∧
    (move_to_encoder_count conf ec block st (r :: rest)).st.target_encoder_counts
      = some ec := by
  have hmv : move_to_encoder_count conf ec block st (r :: rest) =
      ⟨.error .protocolError, { st with target_encoder_counts := some ec },
       [Ev.write (moveFrame conf.channel ec)], rest⟩ := by
    unfold move_to_encoder_count send
    rw [hidle, h]
    simp [hleft]
  exact ⟨hmv, by rw [hmv]⟩

/-- Witness for C9: populated channel 2, idle, device leaves a leftover
byte after the move frame. -/
theorem c9_witness :
    move_to_encoder_count ⟨2, some ⟨2116667/10000000, 12700⟩, false, 1⟩ 47 true
        ⟨some 0, some 0, none⟩ [⟨[], 3⟩] =
      ⟨.error .protocolError, ⟨some 0, some 0, some 47⟩,
       [Ev.write (moveFrame 2 47)], []⟩ :=
  (c9_target_set_before_send ⟨2, some ⟨2116667/10000000, 12700⟩, false, 1⟩
    ⟨2116667/10000000, 12700⟩ ⟨some 0, some 0, none⟩ ⟨[], 3⟩ [] 47 true rfl rfl
    (by decide)).1

/-- C7: a get-position exchange fails with the protocol error when byte
offset 6 of the 12-byte response differs from the channel byte, and every
request (get-position, zero-encoder, move-to-count) fails with the protocol
error when the Link reports leftover input afterwards; in each case exactly
one exchange appears on the trace (no retry) and the error is the
operation's result (it propagates). -/
theorem c7_protocol_errors (conf : ChanConf) (stg : Stage) (st : ChanState)
    (r : SendResp) (rest : List SendResp) (ec : ℤ) (block : Bool)
    (h : conf.stage = some stg) :
    (r.leftOver = 0 → ((r.resp.take 12).drop 6).take 1 ≠ leBytes 1 conf.channel →
      get_encoder_counts conf st (r :: rest) =
        ⟨.error .protocolError, st,
         [Ev.write (getFrame conf.channel), Ev.read 12 (r.resp.take 12)], rest⟩) ∧
    (r.leftOver ≠ 0 →
      get_encoder_counts conf st (r :: rest) =
        ⟨.error .protocolError, st,
         [Ev.write (getFrame conf.channel), Ev.read 12 (r.resp.take 12)], rest⟩ ∧
      set_encoder_counts_to_zero conf st (r :: rest) =
        ⟨.error .protocolError, st, [Ev.write (zeroFrame conf.channel)], rest⟩ ∧
      (st.target_encoder_counts = none →
        move_to_encoder_count conf ec block st (r :: rest) =
          ⟨.error .protocolError, { st with target_encoder_counts := some ec },
           [Ev.write (moveFrame conf.channel ec)], rest⟩)) := by
  constructor
  · intro hl hbyte
    unfold get_encoder_counts send
    rw [h]
    simp [hl, hbyte]
  · intro hl
    refine ⟨?_, ?_, ?_⟩
    · unfold get_encoder_counts send
      rw [h]
      simp [hl]
    · unfold set_encoder_counts_to_zero send
      rw [h]
      simp [hl]
    · intro hidle
      unfold move_to_encoder_count send
      rw [hidle, h]
      simp [hl]

/-- Witness for C7: channel 2, a response claiming channel 9, and a
leftover byte after a zero-encoder request. -/
theorem c7_witness :
    get_encoder_counts ⟨2, some ⟨2116667/10000000, 12700⟩, false, 1⟩ ⟨some 0, some 0, none⟩
        [⟨[0, 0, 0, 0, 0, 0, 9, 0, 47, 0, 0, 0], 0⟩] =
      ⟨.error .protocolError, ⟨some 0, some 0, none⟩,
       [Ev.write (getFrame 2), Ev.read 12 [0, 0, 0, 0, 0, 0, 9, 0, 47, 0, 0, 0]], []⟩ ∧
    set_encoder_counts_to_zero ⟨2, some ⟨2116667/10000000, 12700⟩, false, 1⟩
        ⟨some 0, some 0, none⟩ [⟨[], 1⟩] =
      ⟨.error .protocolError, ⟨some 0, some 0, none⟩, [Ev.write (zeroFrame 2)], []⟩ := by
  constructor
  · exact (c7_protocol_errors ⟨2, some ⟨2116667/10000000, 12700⟩, false, 1⟩
      ⟨2116667/10000000, 12700⟩ ⟨some 0, some 0, none⟩
      ⟨[0, 0, 0, 0, 0, 0, 9, 0, 47, 0, 0, 0], 0⟩ [] 0 true rfl).1 rfl (by decide)
  · exact ((c7_protocol_errors ⟨2, some ⟨2116667/10000000, 12700⟩, false, 1⟩
      ⟨2116667/10000000, 12700⟩ ⟨some 0, some 0, none⟩
      ⟨[], 1⟩ [] 0 true rfl).2 (by decide)).2.1

/-- C2 counterexample: with last-known count 0 and a pending target of 100
counts on a ZFM2030 channel, a relative move of 10 µm legalizes against the
last-known position (result 47 counts = 9.9483349 µm), not against the
pending target as the claim states (which would give 147 counts =
31.1150049 µm). -/
theorem c2_counterexample :
    legalize_move_um ⟨2, some ⟨2116667/10000000, 12700⟩, false, 1⟩
        ⟨some 0, some 0, some 100⟩ 10 true = .ok (99483349/10000000) ∧
    legalize_move_um_specref ⟨2, some ⟨2116667/10000000, 12700⟩, false, 1⟩
        ⟨some 0, some 0, some 100⟩ 10 true = .ok (311150049/10000000) ∧
    (99483349/10000000 : ℚ) ≠ 311150049/10000000 := by
  refine ⟨?_, ?_, by norm_num⟩
  · have h47 : pyRound ((100000000/2116667 : ℚ)) = 47 :=
      pyRound_eq_low 47 _ (by norm_num) (by norm_num)
    simp only [legalize_move_um, um_to_encoder_counts, encoder_counts_to_um]
    norm_num [h47]
  · have h147 : pyRound ((311666700/2116667 : ℚ)) = 147 :=
      pyRound_eq_low 147 _ (by norm_num) (by norm_num)
    simp only [legalize_move_um_specref, um_to_encoder_counts, encoder_counts_to_um]
    norm_num [h147]

/-- C2 (amended): the reference position for a relative move is always
`position_um` (the last-known counts converted to physical units) — the
pending target is never consulted: legalization is insensitive to
`target_encoder_counts`, and a relative move equals the absolute move at
`position_um + displacement`. -/
theorem c2_reference_is_last_known (conf : ChanConf) (st₁ st₂ : ChanState) (mu : ℚ)
    (rel : Bool) (stg : Stage) (p : ℚ)
    (h : conf.stage = some stg) (hp : st₁.position_um = some p) :
    (st₁.position_um = st₂.position_um →
      legalize_move_um conf st₁ mu rel = legalize_move_um conf st₂ mu rel) ∧
    legalize_move_um conf st₁ mu true = legalize_move_um conf st₁ (mu + p) false := by
  constructor
  · intro hpos
    unfold legalize_move_um
    rw [hpos]
  · unfold legalize_move_um
    rw [h, hp]
    rfl

/-- Witness for C2's amended theorem: two states sharing `position_um 0`
but with different pending targets legalize identically, and the relative
form equals the absolute form. -/
theorem c2_witness :
    legalize_move_um ⟨2, some ⟨2116667/10000000, 12700⟩, false, 1⟩
        ⟨some 0, some 0, some 100⟩ 10 true =
      legalize_move_um ⟨2, some ⟨2116667/10000000, 12700⟩, false, 1⟩
        ⟨some 5, some 0, none⟩ 10 true ∧
    legalize_move_um ⟨2, some ⟨2116667/10000000, 12700⟩, false, 1⟩
        ⟨some 0, some 0, some 100⟩ 10 true =
      legalize_move_um ⟨2, some ⟨2116667/10000000, 12700⟩, false, 1⟩
        ⟨some 0, some 0, some 100⟩ (10 + 0) false :=
  ⟨(c2_reference_is_last_known ⟨2, some ⟨2116667/10000000, 12700⟩, false, 1⟩
      ⟨some 0, some 0, some 100⟩ ⟨some 5, some 0, none⟩ 10 true
      ⟨2116667/10000000, 12700⟩ 0 rfl rfl).1 rfl,
   (c2_reference_is_last_known ⟨2, some ⟨2116667/10000000, 12700⟩, false, 1⟩
      ⟨some 0, some 0, some 100⟩ ⟨some 5, some 0, none⟩ 10 true
      ⟨2116667/10000000, 12700⟩ 0 rfl rfl).2⟩

/-- C3 counterexample: on an MMP-2XY channel (0.5 µm/count, ±25400 µm) the
absolute request 25399.75 µm is accepted, yet its legalized (count-snapped)
position is 25400 µm — exactly the limit, not strictly inside the open
interval.  So the failure condition is not "legalized position outside the
open interval": the assert tests the pre-snap request. -/
theorem c3_counterexample :
    legalize_move_um ⟨1, some ⟨1/2, 25400⟩, false, 1⟩ ⟨some 0, some 0, none⟩
        (101599/4) false = .ok 25400 ∧
    ¬ ((25400 : ℚ) < 25400) := by
  refine ⟨?_, by norm_num⟩
  have h508 : pyRound ((101599/2 : ℚ)) = 50800 := by
    rw [pyRound_eq_half 50799 _ (by norm_num)]
    norm_num
  simp only [legalize_move_um, um_to_encoder_counts, encoder_counts_to_um]
  norm_num [h508]

/-- C3 (amended): `legalize_move_um` fails with `OutOfRangeError` exactly
when the reference-resolved requested position — before count snapping —
does not lie strictly inside `(−limit_um, +limit_um)`; an in-range request
is never clamped (the count-snapped value is returned as-is, even when the
snapping carries it to or past the limit), a requested absolute move of
exactly `limit_um` or beyond fails, and `move_um` propagates the failure
untouched. -/
theorem c3_limit_enforcement (conf : ChanConf) (stg : Stage) (st : ChanState)
    (p mu : ℚ) (rel : Bool) (env : List SendResp) (block : Bool)
    (h : conf.stage = some stg) (hp : st.position_um = some p) :
    (legalize_move_um conf st mu rel = .error .outOfRange ↔
      ¬ (-stg.position_limit_um < (if rel then mu + p else mu) ∧
         (if rel then mu + p else mu) < stg.position_limit_um)) ∧
    ((-stg.position_limit_um < (if rel then mu + p else mu) ∧
      (if rel then mu + p else mu) < stg.position_limit_um) →
      legalize_move_um conf st mu rel =
        .ok (encoder_counts_to_um stg.um_per_count conf.reverse
              (um_to_encoder_counts stg.um_per_count conf.reverse
                (if rel then mu + p else mu)))) ∧
    (legalize_move_um conf st mu rel = .error .outOfRange →
      move_um conf st env mu rel block = ⟨.error .outOfRange, st, [], env⟩) := by
  have hleg : legalize_move_um conf st mu rel =
      if -stg.position_limit_um < (if rel then mu + p else mu) ∧
         (if rel then mu + p else mu) < stg.position_limit_um then
        .ok (encoder_counts_to_um stg.um_per_count conf.reverse
              (um_to_encoder_counts stg.um_per_count conf.reverse
                (if rel then mu + p else mu)))
      else .error .outOfRange := by
    unfold legalize_move_um
    rw [h]
    cases rel
    · simp only [Bool.false_eq_true, if_false]
    · rw [hp]
      simp only [if_true]
  refine ⟨?_, ?_, ?_⟩
  · rw [hleg]
    by_cases hc : (-stg.position_limit_um < (if rel then mu + p else mu) ∧
         (if rel then mu + p else mu) < stg.position_limit_um)
    · rw [if_pos hc]
      simp [hc]
    · rw [if_neg hc]
      simp [hc]
  · intro hc
    rw [hleg, if_pos hc]
  · intro herr
    unfold move_um
    rw [herr]

/-- Witness for C3's amended theorem: on MMP-2XY from position 0, the
absolute request of exactly `limit_um = 25400` fails with `OutOfRangeError`
and `move_um` propagates it; the absolute request
`limit_um − um_per_count/2 = 25399.75` does not fail. -/
theorem c3_witness :
    legalize_move_um ⟨1, some ⟨1/2, 25400⟩, false, 1⟩ ⟨some 0, some 0, none⟩
        25400 false = .error .outOfRange ∧
    move_um ⟨1, some ⟨1/2, 25400⟩, false, 1⟩ ⟨some 0, some 0, none⟩ [] 25400 false true
      = ⟨.error .outOfRange, ⟨some 0, some 0, none⟩, [], []⟩ ∧
    ¬ (legalize_move_um ⟨1, some ⟨1/2, 25400⟩, false, 1⟩ ⟨some 0, some 0, none⟩
        (101599/4) false = .error .outOfRange) := by
  have h1 : legalize_move_um ⟨1, some ⟨1/2, 25400⟩, false, 1⟩ ⟨some 0, some 0, none⟩
      25400 false = .error .outOfRange :=
    (c3_limit_enforcement ⟨1, some ⟨1/2, 25400⟩, false, 1⟩ ⟨1/2, 25400⟩
      ⟨some 0, some 0, none⟩ 0 25400 false [] true rfl rfl).1.mpr (by norm_num)
  refine ⟨h1, ?_, ?_⟩
  · exact (c3_limit_enforcement ⟨1, some ⟨1/2, 25400⟩, false, 1⟩ ⟨1/2, 25400⟩
      ⟨some 0, some 0, none⟩ 0 25400 false [] true rfl rfl).2.2 h1
  · rw [(c3_limit_enforcement ⟨1, some ⟨1/2, 25400⟩, false, 1⟩ ⟨1/2, 25400⟩
      ⟨some 0, some 0, none⟩ 0 (101599/4) false [] true rfl rfl).1]
    norm_num

/-! Concrete scenario of spec §8: ZFM2030 channel 2, not reversed, seeded at
count 0, one clean move exchange followed by one clean poll reporting 47. -/

/-- Channel 2 carrying a ZFM2030 (0.2116667 µm/count, ±12700 µm), not
reversed, tolerance 1 count. -/
def zfm2030Conf : ChanConf := ⟨2, some ⟨2116667/10000000, 12700⟩, false, 1⟩

/-- Channel state after the constructor seeded the encoder at count 0. -/
def seededState : ChanState := ⟨some 0, some 0, none⟩

/-- A 12-byte get-position response for channel 2 reporting count 47. -/
def resp47 : List ℕ := [0, 0, 0, 0, 0, 0, 2, 0, 47, 0, 0, 0]

/-- Device behaviour: clean move exchange, then one clean poll answering
`resp47`. -/
def env47 : List SendResp := [⟨[], 0⟩, ⟨resp47, 0⟩]

lemma leg_scenario :
    legalize_move_um zfm2030Conf seededState 10 true = .ok (99483349/10000000) := by
  have h47 : pyRound ((100000000/2116667 : ℚ)) = 47 :=
    pyRound_eq_low 47 _ (by norm_num) (by norm_num)
  simp only [legalize_move_um, zfm2030Conf, seededState, um_to_encoder_counts,
    encoder_counts_to_um]
  norm_num [h47]

lemma ec_scenario : um_to_encoder_counts (2116667/10000000) false (99483349/10000000) = 47 := by
  have h : pyRound ((47 : ℚ)) = 47 := pyRound_eq_low 47 _ (by norm_num) (by norm_num)
  unfold um_to_encoder_counts
  norm_num [h]

lemma pos_scenario : encoder_counts_to_um (2116667/10000000) false 47 = 99483349/10000000 := by
  unfold encoder_counts_to_um
  norm_num

lemma move_um_scenario :
    move_um zfm2030Conf seededState env47 10 true true =
      ⟨.ok (99483349/10000000), ⟨some 47, some (99483349/10000000), none⟩,
       [Ev.write (moveFrame 2 47), Ev.write (getFrame 2), Ev.read 12 resp47], []⟩ := by
  rw [move_um, leg_scenario]
  simp only [zfm2030Conf]
  rw [ec_scenario]
  norm_num [move_to_encoder_count, finish_move, finishLoop, get_encoder_counts, send,
    seededState, env47, resp47, getFrame, leBytes, intFromLeSigned, leUnsigned,
    pos_scenario]

/-- C6 counterexample: in the spec's concrete scenario the call returns the
legalized position 47 × 0.2116667 = 9.9483349 µm, not 9.9684149 µm as the
claim states. -/
theorem c6_counterexample :
    (move_um zfm2030Conf seededState env47 10 true true).val = .ok (99483349/10000000) ∧
    (99483349/10000000 : ℚ) ≠ 99684149/10000000 :=
  ⟨by rw [move_um_scenario], by norm_num⟩

/-- C6 (amended): in the concrete scenario (`um_per_count = 0.2116667`,
`limit_um = 12700`, not reversed, last known count 0, no pending move),
`move_um(channel, 10, relative := true, block := true)` computes
`target_counts = round(10/0.2116667) = 47`, sends the move-to-count frame
carrying count 47, polls until the reported count is within tolerance of
47 (one poll answering 47 suffices, clearing the target), and returns the
legalized position 47 × 0.2116667 = 9.9483349 µm. -/
theorem c6_concrete_scenario :
    um_to_encoder_counts (2116667/10000000) false 10 = 47 ∧
    moveFrame 2 47 = [0x53, 0x04, 0x06, 0, 0, 0, 2, 0, 47, 0, 0, 0] ∧
    move_um zfm2030Conf seededState env47 10 true true =
      ⟨.ok (99483349/10000000), ⟨some 47, some (99483349/10000000), none⟩,
       [Ev.write (moveFrame 2 47), Ev.write (getFrame 2), Ev.read 12 resp47], []⟩ := by
  refine ⟨?_, by decide, move_um_scenario⟩
  have h47 : pyRound ((100000000/2116667 : ℚ)) = 47 :=
    pyRound_eq_low 47 _ (by norm_num) (by norm_num)
  unfold um_to_encoder_counts
  norm_num [h47]

/-! Characterisations of `get_encoder_counts` and the `_finish_move` loop. -/

lemma get_ok_spec (conf : ChanConf) (st : ChanState) (env : List SendResp)
    (ec : ℤ) (st' : ChanState) (tr : List Ev) (env' : List SendResp)
    (hg : get_encoder_counts conf st env = ⟨.ok ec, st', tr, env'⟩) :
    ∃ stg r rest, conf.stage = some stg ∧ env = r :: rest ∧ env' = rest ∧
      st' = { st with
                encoder_counts := some ec,
                position_um :=
                  some (encoder_counts_to_um stg.um_per_count conf.reverse ec) } ∧
      tr = [Ev.write (getFrame conf.channel), Ev.read 12 (r.resp.take 12)] := by
  rcases hstg : conf.stage with _ | stg
  · simp [get_encoder_counts, send, hstg] at hg
  · rcases env with _ | ⟨r, rest⟩
    · simp [get_encoder_counts, send, hstg] at hg
    · by_cases hl : r.leftOver = 0
      · by_cases hb : ((r.resp.take 12).drop 6).take 1 = leBytes 1 conf.channel
        · simp only [get_encoder_counts, send, hstg, hl, hb, ne_eq,
            not_true_eq_false, if_false, ite_false, Option.getD_some,
            Res.mk.injEq, Except.ok.injEq, not_false_eq_true, if_true] at hg
          obtain ⟨h1, h2, h3, h4⟩ := hg
          subst h1
          exact ⟨stg, r, rest, rfl, rfl, h4.symm, h2.symm, h3.symm⟩
        · simp [get_encoder_counts, send, hstg, hl, hb] at hg
      · simp [get_encoder_counts, send, hstg, hl] at hg

lemma get_tr_eq_send_tr (conf : ChanConf) (st : ChanState) (env : List SendResp) :
    (get_encoder_counts conf st env).tr
      = (send conf (getFrame conf.channel) (some 12) st env).tr := by
  unfold get_encoder_counts
  rcases hs : send conf (getFrame conf.channel) (some 12) st env with ⟨v, st', tr, env'⟩
  cases v with
  | error e => rfl
  | ok response? =>
    dsimp only
    split_ifs
    · rfl
    · cases conf.stage <;> rfl

lemma send_tr_mem (conf : ChanConf) (cmd : List ℕ) (rb : Option ℕ) (st : ChanState)
    (env : List SendResp) (ev : Ev) (h : ev ∈ (send conf cmd rb st env).tr) :
    ev = Ev.write cmd ∨ ∃ n bs, ev = Ev.read n bs := by
  rcases hstg : conf.stage with _ | stg
  · simp [send, hstg] at h
  · rcases env with _ | ⟨r, rest⟩
    · simp [send, hstg] at h
      exact Or.inl h
    · rcases rb with _ | n
      · by_cases hl : r.leftOver = 0 <;> simp [send, hstg, hl] at h <;> exact Or.inl h
      · by_cases hl : r.leftOver = 0 <;> simp [send, hstg, hl] at h <;>
          rcases h with h | h
        · exact Or.inl h
        · exact Or.inr ⟨n, r.resp.take n, h⟩
        · exact Or.inl h
        · exact Or.inr ⟨n, r.resp.take n, h⟩

lemma get_tr_mem (conf : ChanConf) (st : ChanState) (env : List SendResp) (ev : Ev)
    (h : ev ∈ (get_encoder_counts conf st env).tr) :
    ev = Ev.write (getFrame conf.channel) ∨ ∃ n bs, ev = Ev.read n bs := by
  rw [get_tr_eq_send_tr] at h
  exact send_tr_mem conf (getFrame conf.channel) (some 12) st env ev h

lemma finishLoop_tr_mem (conf : ChanConf) :
    ∀ (env : List SendResp) (st : ChanState) (ev : Ev),
      ev ∈ (finishLoop conf st env).tr →
      ev = Ev.write (getFrame conf.channel) ∨ ∃ n bs, ev = Ev.read n bs := by
  intro env
  induction env with
  | nil =>
    intro st ev h
    unfold finishLoop at h
    rcases hg : get_encoder_counts conf st [] with ⟨v, st1, tr1, env1⟩
    rw [hg] at h
    have htr : tr1 = (get_encoder_counts conf st []).tr := by rw [hg]
    cases v with
    | error e => exact get_tr_mem conf st [] ev (htr ▸ h)
    | ok ec => exact get_tr_mem conf st [] ev (htr ▸ h)
  | cons r rest ih =>
    intro st ev h
    unfold finishLoop at h
    rcases hg : get_encoder_counts conf st (r :: rest) with ⟨v, st1, tr1, env1⟩
    rw [hg] at h
    have htr : tr1 = (get_encoder_counts conf st (r :: rest)).tr := by rw [hg]
    cases v with
    | error e => exact get_tr_mem conf st (r :: rest) ev (htr ▸ h)
    | ok ec =>
      dsimp only at h
      rcases hst1 : st1.target_encoder_counts with _ | t
      · rw [hst1] at h
        exact get_tr_mem conf st (r :: rest) ev (htr ▸ h)
      · rw [hst1] at h
        dsimp only at h
        split_ifs at h
        · exact get_tr_mem conf st (r :: rest) ev (htr ▸ h)
        · rcases List.mem_append.mp h with h' | h'
          · exact get_tr_mem conf st (r :: rest) ev (htr ▸ h')
          · exact ih st1 ev h'

lemma finishLoop_ok_spec (conf : ChanConf) :
    ∀ (env : List SendResp) (st : ChanState) (t : ℤ) (st' : ChanState)
      (tr : List Ev) (env' : List SendResp),
      st.target_encoder_counts = some t →
      finishLoop conf st env = ⟨.ok (), st', tr, env'⟩ →
      ∃ stg c, conf.stage = some stg ∧
        st' = ⟨some c, some (encoder_counts_to_um stg.um_per_count conf.reverse c), none⟩ ∧
        t - conf.encoder_counts_tol ≤ c ∧ c ≤ t + conf.encoder_counts_tol := by
  intro env
  induction env with
  | nil =>
    intro st t st' tr env' h1 h2
    unfold finishLoop at h2
    rcases hg : get_encoder_counts conf st [] with ⟨v, st1, tr1, env1⟩
    rw [hg] at h2
    cases v <;> simp at h2
  | cons r rest ih =>
    intro st t st' tr env' h1 h2
    unfold finishLoop at h2
    rcases hg : get_encoder_counts conf st (r :: rest) with ⟨v, st1, tr1, env1⟩
    rw [hg] at h2
    cases v with
    | error e => simp at h2
    | ok ec =>
      dsimp only at h2
      obtain ⟨stg, r', rest', hstg, henv, henv1, hst1, htr1⟩ :=
        get_ok_spec conf st (r :: rest) ec st1 tr1 env1 hg
      have hst1t : st1.target_encoder_counts = some t := by
        rw [hst1]
        exact h1
      rw [hst1t] at h2
      dsimp only at h2
      split_ifs at h2 with htol
      · simp only [Res.mk.injEq] at h2
        obtain ⟨-, h2st, h2tr, h2env⟩ := h2
        refine ⟨stg, ec, hstg, ?_, htol.1, htol.2⟩
        rw [← h2st, hst1]
      · rcases hr : finishLoop conf st1 rest with ⟨v2, st2, tr2, env2⟩
        rw [hr] at h2
        simp only [Res.mk.injEq] at h2
        obtain ⟨h2v, h2st, h2tr, h2env⟩ := h2
        rw [h2v] at hr
        obtain ⟨stg', c, hstg', hst2, hc1, hc2⟩ :=
          ih st1 t st2 tr2 env2 hst1t hr
        exact ⟨stg', c, hstg', h2st ▸ hst2, hc1, hc2⟩

/-- C4: `_finish_move` is a no-op on an Idle channel (state, trace and
environment untouched); on a Moving channel all its Link activity is
get-position polling, and when it returns successfully the pending target
is cleared (Idle), the last-known counts equal the final polled count,
which lies within `tolerance_counts` of the target, and `position_um` is
the derived position of that count. -/
theorem c4_finish_semantics (conf : ChanConf) (st : ChanState) (env : List SendResp) :
    (st.target_encoder_counts = none → finish_move conf st env = ⟨.ok (), st, [], env⟩) ∧
    (∀ t, st.target_encoder_counts = some t →
      (∀ ev, ev ∈ (finish_move conf st env).tr →
        ev = Ev.write (getFrame conf.channel) ∨ ∃ n bs, ev = Ev.read n bs) ∧
      (∀ st' tr env', finish_move conf st env = ⟨.ok (), st', tr, env'⟩ →
        ∃ stg c, conf.stage = some stg ∧
          st' = ⟨some c, some (encoder_counts_to_um stg.um_per_count conf.reverse c), none⟩ ∧
          t - conf.encoder_counts_tol ≤ c ∧ c ≤ t + conf.encoder_counts_tol)) := by
  constructor
  · intro h
    unfold finish_move
    rw [h]
  · intro t ht
    constructor
    · intro ev hev
      unfold finish_move at hev
      rw [ht] at hev
      exact finishLoop_tr_mem conf env st ev hev
    · intro st' tr env' heq
      unfold finish_move at heq
      rw [ht] at heq
      exact finishLoop_ok_spec conf env st t st' tr env' ht heq

lemma finish_scenario :
    finish_move zfm2030Conf ⟨some 0, some 0, some 47⟩ [⟨resp47, 0⟩] =
      ⟨.ok (), ⟨some 47, some (99483349/10000000), none⟩,
       [Ev.write (getFrame 2), Ev.read 12 resp47], []⟩ := by
  norm_num [finish_move, finishLoop, get_encoder_counts, send, zfm2030Conf, resp47,
    getFrame, leBytes, intFromLeSigned, leUnsigned, pos_scenario]

/-- Witness for C4: the no-op on an Idle channel, and a Moving channel with
target 47 finishing after one clean poll reporting 47. -/
theorem c4_witness :
    finish_move zfm2030Conf seededState [] = ⟨.ok (), seededState, [], []⟩ ∧
    (∃ stg c, zfm2030Conf.stage = some stg ∧
      (⟨some 47, some (99483349/10000000), none⟩ : ChanState)
        = ⟨some c, some (encoder_counts_to_um stg.um_per_count zfm2030Conf.reverse c), none⟩ ∧
      47 - zfm2030Conf.encoder_counts_tol ≤ c ∧ c ≤ 47 + zfm2030Conf.encoder_counts_tol) :=
  ⟨(c4_finish_semantics zfm2030Conf seededState []).1 rfl,
   ((c4_finish_semantics zfm2030Conf ⟨some 0, some 0, some 47⟩ [⟨resp47, 0⟩]).2 47 rfl).2
     _ _ _ finish_scenario⟩

lemma send_none_tr (conf : ChanConf) (stg : Stage) (cmd : List ℕ) (st : ChanState)
    (env : List SendResp) (h : conf.stage = some stg) :
    (send conf cmd none st env).tr = [Ev.write cmd] := by
  unfold send
  rw [h]
  cases env
  · rfl
  · dsimp only
    split_ifs <;> rfl

lemma moveFrame_ne_getFrame (ch : ℕ) (ec : ℤ) : moveFrame ch ec ≠ getFrame ch := by
  simp [moveFrame, getFrame]

/-- C1: issuing a move while the channel already has a pending target first
runs the prior move's finish loop to completion: when that loop succeeds
the pending target is cleared (Idle) and the new move-to-count frame is the
first Link write after the loop's trace; when the loop fails, its error is
the call's result and the new move frame is never written.  At most one
target is pending per channel by construction (a single optional field). -/
theorem c1_pending_move_serialized (conf : ChanConf) (stg : Stage) (st : ChanState)
    (env : List SendResp) (t ec : ℤ) (block : Bool)
    (hstg : conf.stage = some stg) (h : st.target_encoder_counts = some t) :
    ((finish_move conf st env).val = .ok () →
      (finish_move conf st env).st.target_encoder_counts = none ∧
      ∃ tr2, (move_to_encoder_count conf ec block st env).tr
          = (finish_move conf st env).tr ++ (Ev.write (moveFrame conf.channel ec) :: tr2)) ∧
    (∀ e, (finish_move conf st env).val = .error e →
      move_to_encoder_count conf ec block st env
        = ⟨.error e, (finish_move conf st env).st, (finish_move conf st env).tr,
           (finish_move conf st env).env⟩ ∧
      Ev.write (moveFrame conf.channel ec) ∉ (finish_move conf st env).tr) := by
  have htr1 : ∀ ev, ev ∈ (finish_move conf st env).tr →
      ev = Ev.write (getFrame conf.channel) ∨ ∃ n bs, ev = Ev.read n bs := by
    intro ev hev
    unfold finish_move at hev
    rw [h] at hev
    exact finishLoop_tr_mem conf env st ev hev
  have hnomove : Ev.write (moveFrame conf.channel ec) ∉ (finish_move conf st env).tr := by
    intro hmem
    rcases htr1 _ hmem with hw | ⟨n, bs, hr⟩
    · exact moveFrame_ne_getFrame conf.channel ec (Ev.write.inj hw)
    · exact Ev.noConfusion hr
  have hmv : move_to_encoder_count conf ec block st env =
      match finish_move conf st env with
      | ⟨.error e, st1, tr1, env1⟩ => ⟨.error e, st1, tr1, env1⟩
      | ⟨.ok _, st1, tr1, env1⟩ =>
        match send conf (moveFrame conf.channel ec) none
            { st1 with target_encoder_counts := some ec } env1 with
        | ⟨.error e, st3, tr3, env3⟩ => ⟨.error e, st3, tr1 ++ tr3, env3⟩
        | ⟨.ok _, st3, tr3, env3⟩ =>
          if block then
            let r := finish_move conf st3 env3
            ⟨r.val, r.st, tr1 ++ tr3 ++ r.tr, r.env⟩
          else ⟨.ok (), st3, tr1 ++ tr3, env3⟩ := by
    unfold move_to_encoder_count
    rw [h]
  rcases hfm : finish_move conf st env with ⟨v1, st1, tr1, env1⟩
  rw [hfm] at hmv hnomove
  constructor
  · intro hok
    have hv1 : v1 = .ok () := hok
    subst hv1
    dsimp only at hmv
    constructor
    · unfold finish_move at hfm
      rw [h] at hfm
      obtain ⟨stg', c, -, hst1, -, -⟩ :=
        finishLoop_ok_spec conf env st t st1 tr1 env1 h hfm
      rw [hst1]
    · rcases hs : send conf (moveFrame conf.channel ec) none
          { st1 with target_encoder_counts := some ec } env1 with ⟨v3, st3, tr3, env3⟩
      have htr3 : tr3 = [Ev.write (moveFrame conf.channel ec)] := by
        have hh := send_none_tr conf stg (moveFrame conf.channel ec)
          { st1 with target_encoder_counts := some ec } env1 hstg
        rw [hs] at hh
        exact hh
      rw [hs] at hmv
      cases v3 with
      | error e =>
        dsimp only at hmv
        refine ⟨[], ?_⟩
        rw [hmv, htr3]
      | ok u =>
        cases block with
        | false =>
          dsimp only at hmv
          refine ⟨[], ?_⟩
          rw [hmv, htr3]
          simp
        | true =>
          dsimp only at hmv
          refine ⟨(finish_move conf st3 env3).tr, ?_⟩
          rw [hmv, htr3]
          simp [List.append_assoc]
  · intro e herr
    have hv1 : v1 = .error e := herr
    subst hv1
    dsimp only at hmv
    exact ⟨hmv, hnomove⟩

/-- A 12-byte get-position response for channel 2 reporting count 0. -/
def resp0 : List ℕ := [0, 0, 0, 0, 0, 0, 2, 0, 0, 0, 0, 0]

/-- Witness for C1: a channel with pending target 0; one clean poll
resolves it, then the new move frame (count 47) is written right after the
polling exchange. -/
theorem c1_witness :
    (finish_move zfm2030Conf ⟨some 0, some 0, some 0⟩
        [⟨resp0, 0⟩, ⟨[], 0⟩]).st.target_encoder_counts = none ∧
    ∃ tr2, (move_to_encoder_count zfm2030Conf 47 false ⟨some 0, some 0, some 0⟩
        [⟨resp0, 0⟩, ⟨[], 0⟩]).tr
      = (finish_move zfm2030Conf ⟨some 0, some 0, some 0⟩ [⟨resp0, 0⟩, ⟨[], 0⟩]).tr
        ++ (Ev.write (moveFrame 2 47) :: tr2) :=
  (c1_pending_move_serialized zfm2030Conf ⟨2116667/10000000, 12700⟩
    ⟨some 0, some 0, some 0⟩ [⟨resp0, 0⟩, ⟨[], 0⟩] 0 47 false rfl rfl).1 (by decide)

end MCM3000
